import Mathlib

/-!
Verification of the `deepctx`/`dl_utilities` scripting-context library.

The library wires command-line argument handling, a pluggable module
lifecycle (define-arguments, init, start, run, stop, finish) and a thin
persistence layer over an experiment-tracking service.  This file gives a
shallow embedding of the relevant functions and proves the specification
claims about them.

`Scripting` models `src/dl_utilities/scripting/__init__.py`: the global
job state, the module registry and the `run` driver, instrumented with an
event trace so that ordering claims become statements about the trace.
Module callbacks are modelled by their observable behaviour: each callback
either returns normally or raises a recorded exception.

`WandbMod` models the Weights & Biases context module
(`src/deepctx/scripting/module/wandb_module.py` and
`src/dl_utilities/scripting/module/wandb.py`): persistent-object caching,
the `path` helper, the `_stop` upload loop and the artifact-argument
lookup.
-/

namespace Scripting

/-- The scripting state enumeration (`State` in `scripting/__init__.py`). -/
inductive JState where
  | Idle
  | Running
  | Stopping
  | Finished
deriving DecidableEq, Repr

/-- Exceptions observable by `run`: `KeyboardInterrupt`, the library's
`EarlyStop`, or any other exception (carrying its message). -/
inductive Exc where
  | keyboardInterrupt
  | earlyStop
  | error (msg : String)
deriving DecidableEq, Repr

/-- A scripting module, identified by its `NAME` attribute.  Each lifecycle
callback is modelled by its observable effect: `none` means the callback
returns normally, `some e` means it raises `e`. -/
structure Module where
  name : String
  defineArgumentsExc : Option Exc := none
  initExc : Option Exc := none
  startExc : Option Exc := none
  stopExc : Option Exc := none
  finishExc : Option Exc := none
deriving DecidableEq, Repr

/-- Events recorded while `run` executes: one event per module callback
invocation, plus argument parsing, thread operations, polling iterations
and printed messages. -/
inductive Event where
  | defineArguments (name : String)
  | parseArgs
  | initModule (name : String)
  | startModule (name : String)
  | spawnThread (daemon : Bool)
  | poll
  | joinThread
  | stopModule (name : String)
  | finishModule (name : String)
  | printMsg (msg : String)
deriving DecidableEq, Repr

/-- The module-level globals of `scripting/__init__.py`: `__state`,
`__modules`, `__config` (abstracted to the parse result) and whether
`__job_thread` is set. -/
structure GlobalState where
  state : JState
  modules : List Module
  config : Option Nat
  jobThread : Bool
deriving DecidableEq, Repr

/-- Environment of a single `run` call: the result of `parse_args`, how many
poll iterations the job thread stays alive, the `__state` value observed at
each poll check (it may be changed concurrently by the job), and an optional
exception delivered to the main thread during the polling loop. -/
structure RunSpec where
  parsed : Nat
  aliveSteps : Nat
  pollState : Nat → JState
  runExc : Option Exc

/-- Result of a `run` call: final globals, the event trace, and the
exception propagating out of `run` (if any). -/
structure RunResult where
  gs : GlobalState
  trace : List Event
  exc : Option Exc

/-- A lifecycle loop with the `EarlyStop` state guard
(`__define_arguments`, `__init`, `__start`): iterate the modules, raising
`EarlyStop` if the state has left `Running`, and stopping at the first
exception a callback raises. -/
def phaseLoop (st : JState) (exc : Module → Option Exc) (ev : Module → Event) :
    List Module → List Event × Option Exc
  | [] => ([], none)
  | m :: rest =>
    if st ≠ JState.Running then ([], some Exc.earlyStop)
    else
      match exc m with
      | some e => ([ev m], some e)
      | none =>
        let r := phaseLoop st exc ev rest
        (ev m :: r.1, r.2)

/-- A lifecycle loop without the state guard (`__stop`, `__finish`). -/
def phaseLoopPlain (exc : Module → Option Exc) (ev : Module → Event) :
    List Module → List Event × Option Exc
  | [] => ([], none)
  | m :: rest =>
    match exc m with
    | some e => ([ev m], some e)
    | none =>
      let r := phaseLoopPlain exc ev rest
      (ev m :: r.1, r.2)

/-- The busy-wait loop of `__run`: `while thread.is_alive() and state ==
Running: sleep(0)`.  The first argument is the number of liveness checks the
thread survives; `sched i` is the state observed at check `i`. -/
def pollLoop : Nat → (Nat → JState) → List Event
  | 0, _ => []
  | k + 1, sched =>
    if sched 0 = JState.Running then Event.poll :: pollLoop k (fun i => sched (i + 1))
    else []

/-- Result of the `try` block of `run` (`__init`; `__start`; `__run`). -/
structure TryResult where
  trace : List Event
  exc : Option Exc
  spawned : Bool
deriving Repr

/-- The `try` block of `run`: `__init(config)`, `__start(config)`,
`__run(job, config)`.  The job thread is spawned (daemon) only when init and
start complete; the loop then polls, and `spec.runExc` is an exception
reaching the main thread during `__run` (e.g. a `KeyboardInterrupt`). -/
def tryPhase (mods : List Module) (spec : RunSpec) : TryResult :=
  let i := phaseLoop JState.Running (·.initExc) (fun m => Event.initModule m.name) mods
  match i.2 with
  | some e => ⟨i.1, some e, false⟩
  | none =>
    let s := phaseLoop JState.Running (·.startExc) (fun m => Event.startModule m.name) mods
    match s.2 with
    | some e => ⟨i.1 ++ s.1, some e, false⟩
    | none =>
      ⟨i.1 ++ s.1 ++ (Event.spawnThread true :: pollLoop spec.aliveSteps spec.pollState),
        spec.runExc, true⟩

/-- Model of `__stop`: join the job thread if it was spawned, then call each module's
`_stop`. -/
def stopPhase (mods : List Module) (spawned : Bool) : List Event × Option Exc :=
  let r := phaseLoopPlain (·.stopExc) (fun m => Event.stopModule m.name) mods
  ((if spawned then [Event.joinThread] else []) ++ r.1, r.2)

/-- Model of `__finish`: call each module's `_finish`. -/
def finishPhase (mods : List Module) : List Event × Option Exc :=
  phaseLoopPlain (·.finishExc) (fun m => Event.finishModule m.name) mods

/-- The exception handler of `run`: `except KeyboardInterrupt` and `except
EarlyStop` print a message and continue; any other exception propagates
(`none`).  Normal completion continues with no message. -/
def catchExc : Option Exc → Option (List Event)
  | none => some []
  | some Exc.keyboardInterrupt => some [Event.printMsg "Keyboard interrupted. Stopping..."]
  | some Exc.earlyStop => some [Event.printMsg "Stopping..."]
  | some (Exc.error _) => none

/-- The tail of `run` after argument parsing: run the `try` block's result
through the handler; on catch (or normal completion) set the state to
`Stopping`, run `__stop` and `__finish`, and set the state to `Finished`. -/
def afterTry (gs : GlobalState) (tr0 : List Event) (t : TryResult) : RunResult :=
  match catchExc t.exc with
  | none => ⟨{ gs with jobThread := t.spawned }, tr0 ++ t.trace, t.exc⟩
  | some printEvs =>
    let st := stopPhase gs.modules t.spawned
    match st.2 with
    | some e =>
      ⟨{ gs with state := JState.Stopping, jobThread := false },
        tr0 ++ t.trace ++ printEvs ++ st.1, some e⟩
    | none =>
      let f := finishPhase gs.modules
      match f.2 with
      | some e =>
        ⟨{ gs with state := JState.Stopping, jobThread := false },
          tr0 ++ t.trace ++ printEvs ++ st.1 ++ f.1, some e⟩
      | none =>
        ⟨{ gs with state := JState.Finished, jobThread := false },
          tr0 ++ t.trace ++ printEvs ++ st.1 ++ f.1, none⟩

/-- Model of `scripting.run`: refuse to run unless the state is `Idle`; otherwise set
the state to `Running`, register arguments (`__define_arguments`, outside
the `try` block), parse the command line, then execute the `try` block and
its aftermath. -/
def run (gs : GlobalState) (spec : RunSpec) : RunResult :=
  if gs.state = JState.Idle then
    let d := phaseLoop JState.Running (·.defineArgumentsExc)
      (fun m => Event.defineArguments m.name) gs.modules
    match d.2 with
    | some e => ⟨{ gs with state := JState.Running }, d.1, some e⟩
    | none =>
      afterTry { gs with state := JState.Running, config := some spec.parsed }
        (d.1 ++ [Event.parseArgs]) (tryPhase gs.modules spec)
  else ⟨gs, [], some (Exc.error "A job can only be run once.")⟩

/-- Model of `scripting.init`: reset the state to `Idle`, clear the module list and
the configuration; the trailing `assert __job_thread is None` is reported
through the second component. -/
def init (gs : GlobalState) : GlobalState × Option Exc :=
  ({ gs with state := JState.Idle, modules := [], config := none },
    if gs.jobThread then some (Exc.error "assertion failed: job thread is set") else none)

/-- Ordering of modules by their `NAME` attribute, used by `use`'s
`__modules.sort(key=lambda m: m.NAME)`. -/
def nameLe (a b : Module) : Prop := a.name ≤ b.name

instance : DecidableRel nameLe := fun a b => inferInstanceAs (Decidable (a.name ≤ b.name))

instance : IsTotal Module nameLe := ⟨fun a b => le_total a.name b.name⟩

instance : IsTrans Module nameLe := ⟨fun _ _ _ h h' => le_trans h h'⟩

/-- Model of `scripting.use`: assert the module is not already registered, append it,
and re-sort the registry by `NAME` (Python's stable sort). -/
def use (gs : GlobalState) (m : Module) : Option GlobalState :=
  if m ∈ gs.modules then none
  else some { gs with modules := List.insertionSort nameLe (gs.modules ++ [m]) }

/-- A sequence of `use` calls; `none` as soon as one assertion fails. -/
def useAll (gs : GlobalState) : List Module → Option GlobalState
  | [] => some gs
  | m :: rest =>
    match use gs m with
    | none => none
    | some gs' => useAll gs' rest

/-- Spawn-event recogniser. -/
def Event.isSpawn : Event → Bool
  | Event.spawnThread _ => true
  | _ => false

/-- Stop-event recogniser. -/
def Event.isStop : Event → Bool
  | Event.stopModule _ => true
  | _ => false

/-- Predicate `stopsAfterJoin tr = true` iff no `stopModule` event occurs before the
first `joinThread` event of `tr` (and if `tr` has no join, it has no stop at
all). -/
def stopsAfterJoin : List Event → Bool
  | [] => true
  | e :: rest =>
    if e = Event.joinThread then true
    else if e.isStop then false
    else stopsAfterJoin rest

theorem phaseLoop_clean (exc : Module → Option Exc) (ev : Module → Event)
    (mods : List Module) (h : ∀ m ∈ mods, exc m = none) :
    phaseLoop JState.Running exc ev mods = (mods.map ev, none) := by
  induction mods with
  | nil => rfl
  | cons m rest ih =>
    have hm : exc m = none := h m (List.mem_cons_self m rest)
    have hr := ih (fun x hx => h x (List.mem_cons_of_mem _ hx))
    simp [phaseLoop, hm, hr]

theorem phaseLoopPlain_clean (exc : Module → Option Exc) (ev : Module → Event)
    (mods : List Module) (h : ∀ m ∈ mods, exc m = none) :
    phaseLoopPlain exc ev mods = (mods.map ev, none) := by
  induction mods with
  | nil => rfl
  | cons m rest ih =>
    have hm : exc m = none := h m (List.mem_cons_self m rest)
    have hr := ih (fun x hx => h x (List.mem_cons_of_mem _ hx))
    simp [phaseLoopPlain, hm, hr]

theorem phaseLoop_mem {st : JState} {exc : Module → Option Exc} {ev : Module → Event}
    {e : Event} :
    ∀ mods : List Module, e ∈ (phaseLoop st exc ev mods).1 → ∃ m ∈ mods, e = ev m := by
  intro mods
  induction mods with
  | nil => intro he; simp [phaseLoop] at he
  | cons m rest ih =>
    intro he
    by_cases hst : st = JState.Running
    · subst hst
      cases hexc : exc m with
      | some e' =>
        simp [phaseLoop, hexc] at he
        exact ⟨m, List.mem_cons_self m rest, he⟩
      | none =>
        simp only [phaseLoop, hexc, ne_eq, not_true_eq_false, if_false] at he
        rcases List.mem_cons.mp he with he' | he'
        · exact ⟨m, List.mem_cons_self m rest, he'⟩
        · obtain ⟨m', hm', he''⟩ := ih he'
          exact ⟨m', List.mem_cons_of_mem _ hm', he''⟩
    · simp [phaseLoop, hst] at he

theorem phaseLoopPlain_mem {exc : Module → Option Exc} {ev : Module → Event} {e : Event} :
    ∀ mods : List Module, e ∈ (phaseLoopPlain exc ev mods).1 → ∃ m ∈ mods, e = ev m := by
  intro mods
  induction mods with
  | nil => intro he; simp [phaseLoopPlain] at he
  | cons m rest ih =>
    intro he
    cases hexc : exc m with
    | some e' =>
      simp [phaseLoopPlain, hexc] at he
      exact ⟨m, List.mem_cons_self m rest, he⟩
    | none =>
      simp only [phaseLoopPlain, hexc] at he
      rcases List.mem_cons.mp he with he' | he'
      · exact ⟨m, List.mem_cons_self m rest, he'⟩
      · obtain ⟨m', hm', he''⟩ := ih he'
        exact ⟨m', List.mem_cons_of_mem _ hm', he''⟩

theorem pollLoop_mem : ∀ (n : Nat) (sched : Nat → JState), ∀ e ∈ pollLoop n sched,
    e = Event.poll := by
  intro n
  induction n with
  | zero => intro sched e he; simp [pollLoop] at he
  | succ k ih =>
    intro sched e he
    by_cases h0 : sched 0 = JState.Running
    · simp only [pollLoop, h0, if_pos rfl] at he
      rcases List.mem_cons.mp he with he' | he'
      · exact he'
      · exact ih _ e he'
    · simp [pollLoop, h0] at he

theorem pollLoop_eq_replicate :
    ∀ (n k : Nat) (sched : Nat → JState), k ≤ n →
      (∀ i, i < k → sched i = JState.Running) →
      (k = n ∨ sched k ≠ JState.Running) →
      pollLoop n sched = List.replicate k Event.poll := by
  intro n
  induction n with
  | zero =>
    intro k sched hk _ _
    have : k = 0 := Nat.le_zero.mp hk
    simp [pollLoop, this]
  | succ n ihn =>
    intro k sched hk hrun hexit
    cases k with
    | zero =>
      rcases hexit with h | h
      · exact absurd h.symm (Nat.succ_ne_zero n)
      · simp [pollLoop, h]
    | succ k' =>
      have h0 : sched 0 = JState.Running := hrun 0 (Nat.succ_pos k')
      have hrest := ihn k' (fun i => sched (i + 1)) (Nat.le_of_succ_le_succ hk)
        (fun i hi => hrun (i + 1) (Nat.succ_lt_succ hi))
        (by
          rcases hexit with h | h
          · exact Or.inl (Nat.succ_injective h)
          · exact Or.inr h)
      simp [pollLoop, h0, hrest, List.replicate_succ]

theorem tryPhase_clean (mods : List Module) (spec : RunSpec)
    (h : ∀ m ∈ mods, m.initExc = none ∧ m.startExc = none) :
    tryPhase mods spec =
      ⟨mods.map (fun m => Event.initModule m.name)
        ++ mods.map (fun m => Event.startModule m.name)
        ++ (Event.spawnThread true :: pollLoop spec.aliveSteps spec.pollState),
        spec.runExc, true⟩ := by
  have h1 := phaseLoop_clean (·.initExc) (fun m => Event.initModule m.name)
    mods (fun m hm => (h m hm).1)
  have h2 := phaseLoop_clean (·.startExc) (fun m => Event.startModule m.name)
    mods (fun m hm => (h m hm).2)
  simp [tryPhase, h1, h2]

theorem stopPhase_clean (mods : List Module) (spawned : Bool)
    (h : ∀ m ∈ mods, m.stopExc = none) :
    stopPhase mods spawned =
      ((if spawned then [Event.joinThread] else [])
        ++ mods.map (fun m => Event.stopModule m.name), none) := by
  have h1 := phaseLoopPlain_clean (·.stopExc) (fun m => Event.stopModule m.name)
    mods h
  simp [stopPhase, h1]

theorem finishPhase_clean (mods : List Module) (h : ∀ m ∈ mods, m.finishExc = none) :
    finishPhase mods = (mods.map (fun m => Event.finishModule m.name), none) := by
  have h1 := phaseLoopPlain_clean (·.finishExc)
    (fun m => Event.finishModule m.name) mods h
  simp [finishPhase, h1]

theorem run_eq_afterTry (gs : GlobalState) (spec : RunSpec)
    (hidle : gs.state = JState.Idle)
    (hdef : ∀ m ∈ gs.modules, m.defineArgumentsExc = none) :
    run gs spec =
      afterTry { gs with state := JState.Running, config := some spec.parsed }
        (gs.modules.map (fun m => Event.defineArguments m.name) ++ [Event.parseArgs])
        (tryPhase gs.modules spec) := by
  have h1 := phaseLoop_clean (·.defineArgumentsExc)
    (fun m => Event.defineArguments m.name) gs.modules hdef
  simp [run, hidle, h1]

theorem catchExc_print {e : Option Exc} {l : List Event} (h : catchExc e = some l) :
    ∀ x ∈ l, ∃ msg, x = Event.printMsg msg := by
  cases e with
  | none =>
    simp [catchExc] at h
    subst h
    simp
  | some ex =>
    cases ex with
    | keyboardInterrupt =>
      simp [catchExc] at h
      subst h
      simp
    | earlyStop =>
      simp [catchExc] at h
      subst h
      simp
    | error msg => simp [catchExc] at h

theorem afterTry_trace_none (gs : GlobalState) (tr0 : List Event) (t : TryResult)
    (hc : catchExc t.exc = none) : (afterTry gs tr0 t).trace = tr0 ++ t.trace := by
  simp [afterTry, hc]

theorem afterTry_trace_caught_stopExc (gs : GlobalState) (tr0 : List Event) (t : TryResult)
    (pevs : List Event) (e : Exc) (hc : catchExc t.exc = some pevs)
    (hst : (stopPhase gs.modules t.spawned).2 = some e) :
    (afterTry gs tr0 t).trace = tr0 ++ t.trace ++ pevs ++ (stopPhase gs.modules t.spawned).1 := by
  simp [afterTry, hc, hst]

theorem afterTry_trace_caught (gs : GlobalState) (tr0 : List Event) (t : TryResult)
    (pevs : List Event) (hc : catchExc t.exc = some pevs)
    (hst : (stopPhase gs.modules t.spawned).2 = none) :
    (afterTry gs tr0 t).trace =
      tr0 ++ t.trace ++ pevs ++ (stopPhase gs.modules t.spawned).1
        ++ (finishPhase gs.modules).1 := by
  cases hf : (finishPhase gs.modules).2 with
  | some e => simp [afterTry, hc, hst, hf]
  | none => simp [afterTry, hc, hst, hf]

theorem afterTry_decomp (gs : GlobalState) (tr0 : List Event) (t : TryResult) :
    ∃ tail, (afterTry gs tr0 t).trace = tr0 ++ t.trace ++ tail
      ∧ (tail = []
        ∨ ∃ pevs rest,
            tail = pevs ++ ((if t.spawned then [Event.joinThread] else []) ++ rest)
            ∧ (∀ x ∈ pevs, ∃ msg, x = Event.printMsg msg)
            ∧ ∀ x ∈ rest, (∃ n, x = Event.stopModule n) ∨ ∃ n, x = Event.finishModule n) := by
  cases hc : catchExc t.exc with
  | none =>
    refine ⟨[], ?_, Or.inl rfl⟩
    rw [afterTry_trace_none gs tr0 t hc]
    simp
  | some pevs =>
    have hpevs := catchExc_print hc
    have hstop1 : (stopPhase gs.modules t.spawned).1 =
        (if t.spawned then [Event.joinThread] else [])
          ++ (phaseLoopPlain (·.stopExc) (fun m => Event.stopModule m.name) gs.modules).1 := rfl
    cases hst : (stopPhase gs.modules t.spawned).2 with
    | some e =>
      refine ⟨pevs ++ ((if t.spawned then [Event.joinThread] else [])
          ++ (phaseLoopPlain (·.stopExc) (fun m => Event.stopModule m.name) gs.modules).1),
        ?_, Or.inr ⟨pevs, _, rfl, hpevs, ?_⟩⟩
      · rw [afterTry_trace_caught_stopExc gs tr0 t pevs e hc hst, hstop1]
        simp [List.append_assoc]
      · intro x hx
        obtain ⟨m, _, hm⟩ := phaseLoopPlain_mem gs.modules hx
        exact Or.inl ⟨m.name, hm⟩
    | none =>
      refine ⟨pevs ++ ((if t.spawned then [Event.joinThread] else [])
          ++ ((phaseLoopPlain (·.stopExc) (fun m => Event.stopModule m.name) gs.modules).1
            ++ (finishPhase gs.modules).1)),
        ?_, Or.inr ⟨pevs, _, rfl, hpevs, ?_⟩⟩
      · rw [afterTry_trace_caught gs tr0 t pevs hc hst, hstop1]
        simp [List.append_assoc]
      · intro x hx
        rcases List.mem_append.mp hx with hx' | hx'
        · obtain ⟨m, _, hm⟩ := phaseLoopPlain_mem gs.modules hx'
          exact Or.inl ⟨m.name, hm⟩
        · simp only [finishPhase] at hx'
          obtain ⟨m, _, hm⟩ := phaseLoopPlain_mem gs.modules hx'
          exact Or.inr ⟨m.name, hm⟩

theorem mem_map_name {mods : List Module} {F : String → Event} {x : Event}
    (hx : x ∈ mods.map (fun m => F m.name)) : ∃ n, x = F n := by
  obtain ⟨m, _, hm⟩ := List.mem_map.mp hx
  exact ⟨m.name, hm.symm⟩

/-- The module `NAME` recorded in a module-callback event. -/
def eventModuleName : Event → String
  | Event.defineArguments n => n
  | Event.initModule n => n
  | Event.startModule n => n
  | Event.stopModule n => n
  | Event.finishModule n => n
  | _ => ""

theorem phaseLoop_take (st : JState) (exc : Module → Option Exc) (ev : Module → Event) :
    ∀ mods : List Module, ∃ k, (phaseLoop st exc ev mods).1 = (mods.take k).map ev := by
  intro mods
  induction mods with
  | nil => exact ⟨0, rfl⟩
  | cons m rest ih =>
    by_cases hst : st = JState.Running
    · subst hst
      cases hexc : exc m with
      | some e => exact ⟨1, by simp [phaseLoop, hexc]⟩
      | none =>
        obtain ⟨k, hk⟩ := ih
        exact ⟨k + 1, by simp [phaseLoop, hexc, hk]⟩
    · exact ⟨0, by simp [phaseLoop, hst]⟩

theorem useAll_invariant :
    ∀ (ms : List Module) (gs gs' : GlobalState), useAll gs ms = some gs' →
      gs.modules.Sorted nameLe → gs.modules.Nodup →
      gs'.modules.Sorted nameLe ∧ gs'.modules.Nodup ∧ List.Perm gs'.modules (gs.modules ++ ms) := by
  intro ms
  induction ms with
  | nil =>
    intro gs gs' h hs hn
    simp only [useAll, Option.some.injEq] at h
    subst h
    exact ⟨hs, hn, by simp⟩
  | cons m rest ih =>
    intro gs gs' h hs hn
    rw [useAll] at h
    by_cases hm : m ∈ gs.modules
    · simp [use, hm] at h
    · simp only [use, hm, if_false] at h
      have hperm1 : List.Perm (List.insertionSort nameLe (gs.modules ++ [m])) (gs.modules ++ [m]) :=
        List.perm_insertionSort nameLe (gs.modules ++ [m])
      have hnodup1 : (List.insertionSort nameLe (gs.modules ++ [m])).Nodup := by
        refine hperm1.nodup_iff.mpr ?_
        refine ((List.perm_append_singleton m gs.modules).nodup_iff).mpr ?_
        exact List.nodup_cons.mpr ⟨hm, hn⟩
      have hsorted1 : (List.insertionSort nameLe (gs.modules ++ [m])).Sorted nameLe :=
        List.sorted_insertionSort nameLe (gs.modules ++ [m])
      obtain ⟨hs', hn', hp'⟩ := ih _ gs' h hsorted1 hnodup1
      refine ⟨hs', hn', ?_⟩
      have : List.Perm gs'.modules ((gs.modules ++ [m]) ++ rest) :=
        hp'.trans (hperm1.append_right rest)
      simpa [List.append_assoc] using this

/-- C5: after any sequence of `use()` calls starting from an empty registry,
the registered-module list has no duplicates and is sorted in ascending
order of the modules' `NAME`, it is a permutation of the registered modules
(so the outcome does not depend on registration order), and the
define-arguments lifecycle phase emits its callback events in ascending
`NAME` order. -/
theorem use_sorted_by_name (ms : List Module) (gs' : GlobalState)
    (h : useAll { state := JState.Idle, modules := [], config := none, jobThread := false }
      ms = some gs') :
    gs'.modules.Sorted nameLe ∧ gs'.modules.Nodup ∧ List.Perm gs'.modules ms
    ∧ ((phaseLoop JState.Running (·.defineArgumentsExc)
        (fun m => Event.defineArguments m.name) gs'.modules).1.map eventModuleName).Sorted
        (· ≤ ·) := by
  obtain ⟨hs, hn, hp⟩ := useAll_invariant ms _ gs' h List.sorted_nil List.nodup_nil
  refine ⟨hs, hn, by simpa using hp, ?_⟩
  obtain ⟨k, hk⟩ := phaseLoop_take JState.Running (·.defineArgumentsExc)
    (fun m => Event.defineArguments m.name) gs'.modules
  rw [hk, List.map_map]
  have hname : (eventModuleName ∘ fun m => Event.defineArguments m.name)
      = fun m : Module => m.name := rfl
  rw [hname]
  refine List.pairwise_map.mpr ?_
  exact (hs.sublist (List.take_sublist k gs'.modules)).imp (fun h => h)

/-- Sample modules for the C5 witness. -/
def mAlpha : Module := { name := "alpha" }

/-- Sample modules for the C5 witness. -/
def mBeta : Module := { name := "beta" }

/-- Registry reached by `use(beta); use(alpha)` from an empty registry. -/
def gsC5out : GlobalState :=
  { state := JState.Idle, modules := [mAlpha, mBeta], config := none, jobThread := false }

theorem useAll_msC5 :
    useAll { state := JState.Idle, modules := [], config := none, jobThread := false }
      [mBeta, mAlpha] = some gsC5out := by
  have hba : ¬ nameLe mBeta mAlpha := by
    simp only [nameLe, mAlpha, mBeta]
    simp
    decide
  have hne : mAlpha ≠ mBeta := by
    simp [mAlpha, mBeta]
  simp [useAll, use, List.insertionSort, List.orderedInsert, hba, hne, gsC5out]

/-- Witness for C5: registering `beta` then `alpha` yields the registry
sorted as `[alpha, beta]`, duplicate-free, a permutation of the inputs,
with the define-arguments events in ascending name order. -/
theorem use_sorted_by_name_witness :
    gsC5out.modules.Sorted nameLe ∧ gsC5out.modules.Nodup
    ∧ List.Perm gsC5out.modules [mBeta, mAlpha]
    ∧ ((phaseLoop JState.Running (·.defineArgumentsExc)
        (fun m => Event.defineArguments m.name) gsC5out.modules).1.map eventModuleName).Sorted
        (· ≤ ·) :=
  use_sorted_by_name [mBeta, mAlpha] gsC5out useAll_msC5

/-- C1: for a job executed via `scripting.run` (state `Idle`, no callback
raising, the job thread left to finish on its own), the recorded trace is
exactly: every module's `_define_arguments`, then argument parsing, then
every module's `_init`, then every module's `_start`, then the user job
(spawn of the daemon thread and the polling), then the join and every
module's `_stop`, then every module's `_finish`; `run` returns normally
with state `Finished`.  Sequencing in the trace shows no phase begins
before the previous one has ended. -/
theorem run_lifecycle_order (gs : GlobalState) (spec : RunSpec)
    (hidle : gs.state = JState.Idle)
    (hclean : ∀ m ∈ gs.modules, m.defineArgumentsExc = none ∧ m.initExc = none
      ∧ m.startExc = none ∧ m.stopExc = none ∧ m.finishExc = none)
    (hrun : spec.runExc = none)
    (hpoll : ∀ i, spec.pollState i = JState.Running) :
    (run gs spec).trace =
        gs.modules.map (fun m => Event.defineArguments m.name)
        ++ [Event.parseArgs]
        ++ gs.modules.map (fun m => Event.initModule m.name)
        ++ gs.modules.map (fun m => Event.startModule m.name)
        ++ (Event.spawnThread true :: List.replicate spec.aliveSteps Event.poll)
        ++ (Event.joinThread :: gs.modules.map (fun m => Event.stopModule m.name))
        ++ gs.modules.map (fun m => Event.finishModule m.name)
      ∧ (run gs spec).exc = none
      ∧ (run gs spec).gs.state = JState.Finished := by
  rw [run_eq_afterTry gs spec hidle (fun m hm => (hclean m hm).1)]
  rw [tryPhase_clean gs.modules spec (fun m hm => ⟨(hclean m hm).2.1, (hclean m hm).2.2.1⟩)]
  rw [pollLoop_eq_replicate spec.aliveSteps spec.aliveSteps spec.pollState le_rfl
    (fun i _ => hpoll i) (Or.inl rfl)]
  have hst := stopPhase_clean gs.modules true (fun m hm => (hclean m hm).2.2.2.1)
  have hfi := finishPhase_clean gs.modules (fun m hm => (hclean m hm).2.2.2.2)
  simp [afterTry, hrun, catchExc, hst, hfi, List.append_assoc]

/-- Global state for the C1 witness: two registered modules, all callbacks
returning normally. -/
def gsC1 : GlobalState :=
  { state := JState.Idle, modules := [mAlpha, mBeta], config := none, jobThread := false }

/-- Run environment for the C1 witness: the job thread survives two polls. -/
def specC1 : RunSpec :=
  { parsed := 7, aliveSteps := 2, pollState := fun _ => JState.Running, runExc := none }

/-- Witness for C1 at a concrete two-module job. -/
theorem run_lifecycle_order_witness :
    (run gsC1 specC1).trace =
        gsC1.modules.map (fun m => Event.defineArguments m.name)
        ++ [Event.parseArgs]
        ++ gsC1.modules.map (fun m => Event.initModule m.name)
        ++ gsC1.modules.map (fun m => Event.startModule m.name)
        ++ (Event.spawnThread true :: List.replicate specC1.aliveSteps Event.poll)
        ++ (Event.joinThread :: gsC1.modules.map (fun m => Event.stopModule m.name))
        ++ gsC1.modules.map (fun m => Event.finishModule m.name)
      ∧ (run gsC1 specC1).exc = none
      ∧ (run gsC1 specC1).gs.state = JState.Finished :=
  run_lifecycle_order gsC1 specC1 rfl (by decide) rfl (fun _ => rfl)

theorem stopsAfterJoin_append {l1 l2 : List Event}
    (h : ∀ x ∈ l1, x ≠ Event.joinThread ∧ x.isStop = false) :
    stopsAfterJoin (l1 ++ l2) = stopsAfterJoin l2 := by
  induction l1 with
  | nil => rfl
  | cons e rest ih =>
    have he := h e (List.mem_cons_self e rest)
    simp only [List.cons_append, stopsAfterJoin, he.1, he.2, if_false, Bool.false_eq_true]
    exact ih (fun x hx => h x (List.mem_cons_of_mem _ hx))

theorem afterTry_decomp_spawned (gs : GlobalState) (tr0 : List Event) (t : TryResult)
    (hspawn : t.spawned = true) :
    ∃ tail, (afterTry gs tr0 t).trace = tr0 ++ t.trace ++ tail
      ∧ (tail = []
        ∨ ∃ pevs rest, tail = pevs ++ (Event.joinThread :: rest)
            ∧ (∀ x ∈ pevs, ∃ msg, x = Event.printMsg msg)
            ∧ ∀ x ∈ rest, (∃ n, x = Event.stopModule n) ∨ ∃ n, x = Event.finishModule n) := by
  obtain ⟨tail, htr, h⟩ := afterTry_decomp gs tr0 t
  refine ⟨tail, htr, ?_⟩
  rcases h with rfl | ⟨pevs, rest, rfl, hp, hr⟩
  · exact Or.inl rfl
  · exact Or.inr ⟨pevs, rest, by simp [hspawn], hp, hr⟩

theorem afterTry_state_ne_idle (gs : GlobalState) (tr0 : List Event) (t : TryResult)
    (hgs : gs.state = JState.Running) :
    (afterTry gs tr0 t).gs.state ≠ JState.Idle := by
  cases hc : catchExc t.exc with
  | none => simp [afterTry, hc, hgs]
  | some pevs =>
    cases hst : (stopPhase gs.modules t.spawned).2 with
    | some e => simp [afterTry, hc, hst]
    | none =>
      cases hf : (finishPhase gs.modules).2 with
      | some e => simp [afterTry, hc, hst, hf]
      | none => simp [afterTry, hc, hst, hf]

/-- C3 (amended): the `try` block of `run` covers only the init, start and
run phases.  If it ends with `KeyboardInterrupt` or `EarlyStop` (or
normally), `run` prints the corresponding message, still executes the stop
and finish phases for every used module, and returns normally with state
`Finished`; an exception of any other type propagates out of `run` with the
state left at `Running` and without the stop and finish phases executing.
Argument registration and parsing happen before the `try` block, so their
exceptions always propagate (see the counterexample for the original
claim). -/
theorem run_exception_handling (gs : GlobalState) (spec : RunSpec) (e : Option Exc)
    (hidle : gs.state = JState.Idle)
    (hdef : ∀ m ∈ gs.modules, m.defineArgumentsExc = none)
    (hsf : ∀ m ∈ gs.modules, m.stopExc = none ∧ m.finishExc = none)
    (htry : (tryPhase gs.modules spec).exc = e) :
    (run gs spec).exc =
        (if e = none ∨ e = some Exc.keyboardInterrupt ∨ e = some Exc.earlyStop then none else e)
    ∧ (run gs spec).gs.state =
        (if e = none ∨ e = some Exc.keyboardInterrupt ∨ e = some Exc.earlyStop then
          JState.Finished else JState.Running)
    ∧ (run gs spec).trace =
        gs.modules.map (fun m => Event.defineArguments m.name) ++ [Event.parseArgs]
        ++ (tryPhase gs.modules spec).trace
        ++ (if e = none ∨ e = some Exc.keyboardInterrupt ∨ e = some Exc.earlyStop then
              (if e = some Exc.keyboardInterrupt then
                [Event.printMsg "Keyboard interrupted. Stopping..."]
              else if e = some Exc.earlyStop then [Event.printMsg "Stopping..."] else [])
              ++ ((if (tryPhase gs.modules spec).spawned then [Event.joinThread] else [])
                ++ gs.modules.map (fun m => Event.stopModule m.name))
              ++ gs.modules.map (fun m => Event.finishModule m.name)
            else []) := by
  rw [run_eq_afterTry gs spec hidle hdef]
  have hst := stopPhase_clean gs.modules (tryPhase gs.modules spec).spawned
    (fun m hm => (hsf m hm).1)
  have hfi := finishPhase_clean gs.modules (fun m hm => (hsf m hm).2)
  rcases e with _ | ex
  · have hc : catchExc (tryPhase gs.modules spec).exc = some [] := by rw [htry]; rfl
    simp [afterTry, hc, hst, hfi, List.append_assoc]
  · cases ex with
    | keyboardInterrupt =>
      have hc : catchExc (tryPhase gs.modules spec).exc
          = some [Event.printMsg "Keyboard interrupted. Stopping..."] := by rw [htry]; rfl
      simp [afterTry, hc, hst, hfi, List.append_assoc]
    | earlyStop =>
      have hc : catchExc (tryPhase gs.modules spec).exc
          = some [Event.printMsg "Stopping..."] := by rw [htry]; rfl
      simp [afterTry, hc, hst, hfi, List.append_assoc]
    | error msg =>
      have hc : catchExc (tryPhase gs.modules spec).exc = none := by rw [htry]; rfl
      simp [afterTry, catchExc, hc, htry, List.append_assoc]

/-- Module whose `_start` raises `EarlyStop`, for the C3 witness. -/
def mC3 : Module := { name := "m", startExc := some Exc.earlyStop }

/-- Globals for the C3 witness. -/
def gsC3 : GlobalState :=
  { state := JState.Idle, modules := [mC3], config := none, jobThread := false }

/-- Run environment for the C3 witness. -/
def specC3 : RunSpec :=
  { parsed := 1, aliveSteps := 0, pollState := fun _ => JState.Running, runExc := none }

/-- Witness for C3 (amended): an `EarlyStop` escaping `_start` is caught,
the message is printed, stop and finish still run, and `run` finishes. -/
theorem run_exception_handling_witness :
    (run gsC3 specC3).exc =
        (if (some Exc.earlyStop : Option Exc) = none
            ∨ (some Exc.earlyStop : Option Exc) = some Exc.keyboardInterrupt
            ∨ (some Exc.earlyStop : Option Exc) = some Exc.earlyStop then none
          else some Exc.earlyStop)
    ∧ (run gsC3 specC3).gs.state =
        (if (some Exc.earlyStop : Option Exc) = none
            ∨ (some Exc.earlyStop : Option Exc) = some Exc.keyboardInterrupt
            ∨ (some Exc.earlyStop : Option Exc) = some Exc.earlyStop then
          JState.Finished else JState.Running)
    ∧ (run gsC3 specC3).trace =
        gsC3.modules.map (fun m => Event.defineArguments m.name) ++ [Event.parseArgs]
        ++ (tryPhase gsC3.modules specC3).trace
        ++ (if (some Exc.earlyStop : Option Exc) = none
            ∨ (some Exc.earlyStop : Option Exc) = some Exc.keyboardInterrupt
            ∨ (some Exc.earlyStop : Option Exc) = some Exc.earlyStop then
              (if (some Exc.earlyStop : Option Exc) = some Exc.keyboardInterrupt then
                [Event.printMsg "Keyboard interrupted. Stopping..."]
              else if (some Exc.earlyStop : Option Exc) = some Exc.earlyStop then
                [Event.printMsg "Stopping..."] else [])
              ++ ((if (tryPhase gsC3.modules specC3).spawned then [Event.joinThread] else [])
                ++ gsC3.modules.map (fun m => Event.stopModule m.name))
              ++ gsC3.modules.map (fun m => Event.finishModule m.name)
            else []) :=
  run_exception_handling gsC3 specC3 (some Exc.earlyStop) rfl (by decide) (by decide) rfl

/-- Module whose `_define_arguments` raises `KeyboardInterrupt`, for the C3
counterexample. -/
def mC3cex : Module := { name := "m", defineArgumentsExc := some Exc.keyboardInterrupt }

/-- Globals for the C3 counterexample. -/
def gsC3cex : GlobalState :=
  { state := JState.Idle, modules := [mC3cex], config := none, jobThread := false }

/-- Run environment for the C3 counterexample. -/
def specC3cex : RunSpec :=
  { parsed := 0, aliveSteps := 1, pollState := fun _ => JState.Running, runExc := none }

/-- Counterexample to C3 as stated: a `KeyboardInterrupt` escaping the
define-arguments phase is NOT caught by `run` — it propagates out, the stop
and finish phases do not execute, and the state is left at `Running`, not
`Finished` (the define-arguments phase runs before the `try` block). -/
theorem run_define_exception_escapes :
    run gsC3cex specC3cex =
      ⟨{ state := JState.Running, modules := [mC3cex], config := none, jobThread := false },
        [Event.defineArguments "m"], some Exc.keyboardInterrupt⟩
    ∧ Event.stopModule "m" ∉ [Event.defineArguments "m"]
    ∧ Event.finishModule "m" ∉ [Event.defineArguments "m"]
    ∧ JState.Running ≠ JState.Finished :=
  ⟨rfl, by simp, by simp, by simp⟩

/-- C4: under the hypotheses that the job reaches the run phase (state
`Idle`, define/init/start raising nothing) and that the job thread survives
exactly `k` liveness checks before the loop exit condition triggers
(`k = aliveSteps`: the thread terminated; otherwise: the state left
`Running` at check `k`), `run` spawns exactly one thread, a daemon; no
module's `_stop` is invoked before the join of that thread; and the busy
loop performs exactly `k` polling iterations. -/
theorem run_single_thread (gs : GlobalState) (spec : RunSpec) (k : Nat)
    (hidle : gs.state = JState.Idle)
    (hpre : ∀ m ∈ gs.modules, m.defineArgumentsExc = none ∧ m.initExc = none
      ∧ m.startExc = none)
    (hk : k ≤ spec.aliveSteps)
    (hrunning : ∀ i, i < k → spec.pollState i = JState.Running)
    (hexit : k = spec.aliveSteps ∨ spec.pollState k ≠ JState.Running) :
    (run gs spec).trace.filter Event.isSpawn = [Event.spawnThread true]
    ∧ stopsAfterJoin (run gs spec).trace = true
    ∧ (run gs spec).trace.count Event.poll = k := by
  rw [run_eq_afterTry gs spec hidle (fun m hm => (hpre m hm).1)]
  rw [tryPhase_clean gs.modules spec (fun m hm => ⟨(hpre m hm).2.1, (hpre m hm).2.2⟩)]
  rw [pollLoop_eq_replicate spec.aliveSteps k spec.pollState hk hrunning hexit]
  obtain ⟨tail, htr, htail⟩ := afterTry_decomp_spawned
    { gs with state := JState.Running, config := some spec.parsed }
    (gs.modules.map (fun m => Event.defineArguments m.name) ++ [Event.parseArgs])
    ⟨gs.modules.map (fun m => Event.initModule m.name)
      ++ gs.modules.map (fun m => Event.startModule m.name)
      ++ (Event.spawnThread true :: List.replicate k Event.poll), spec.runExc, true⟩ rfl
  rw [htr]
  have htail3 : (∀ x ∈ tail, x.isSpawn = false ∧ x ≠ Event.poll)
      ∧ stopsAfterJoin tail = true := by
    rcases htail with rfl | ⟨pevs, rest, rfl, hpevs, hrest⟩
    · exact ⟨by simp, rfl⟩
    · refine ⟨?_, ?_⟩
      · intro x hx
        rcases List.mem_append.mp hx with hx | hx
        · obtain ⟨msg, rfl⟩ := hpevs x hx
          exact ⟨rfl, by simp⟩
        · rcases List.mem_cons.mp hx with rfl | hx
          · exact ⟨rfl, by simp⟩
          · rcases hrest x hx with ⟨n, rfl⟩ | ⟨n, rfl⟩
            · exact ⟨rfl, by simp⟩
            · exact ⟨rfl, by simp⟩
      · have hp : ∀ x ∈ pevs, x ≠ Event.joinThread ∧ x.isStop = false := by
          intro x hx
          obtain ⟨msg, rfl⟩ := hpevs x hx
          exact ⟨by simp, rfl⟩
        rw [show pevs ++ (Event.joinThread :: rest)
          = pevs ++ ([Event.joinThread] ++ rest) by simp]
        rw [stopsAfterJoin_append hp]
        simp [stopsAfterJoin]
  refine ⟨?_, ?_, ?_⟩
  · have f1 : (gs.modules.map (fun m => Event.defineArguments m.name)).filter Event.isSpawn
        = [] := List.filter_eq_nil_iff.mpr (by
      intro a ha
      obtain ⟨n, rfl⟩ := mem_map_name ha
      simp [Event.isSpawn])
    have f3 : (gs.modules.map (fun m => Event.initModule m.name)).filter Event.isSpawn
        = [] := List.filter_eq_nil_iff.mpr (by
      intro a ha
      obtain ⟨n, rfl⟩ := mem_map_name ha
      simp [Event.isSpawn])
    have f4 : (gs.modules.map (fun m => Event.startModule m.name)).filter Event.isSpawn
        = [] := List.filter_eq_nil_iff.mpr (by
      intro a ha
      obtain ⟨n, rfl⟩ := mem_map_name ha
      simp [Event.isSpawn])
    have f5 : (List.replicate k Event.poll).filter Event.isSpawn
        = [] := List.filter_eq_nil_iff.mpr (by
      intro a ha
      rw [List.eq_of_mem_replicate ha]
      simp [Event.isSpawn])
    have f6 : tail.filter Event.isSpawn = [] := List.filter_eq_nil_iff.mpr (by
      intro a ha
      simp [(htail3.1 a ha).1])
    simp [List.filter_append, f1, f3, f4, f5, f6, List.filter_cons, Event.isSpawn]
  · have hp : ∀ x ∈ (gs.modules.map (fun m => Event.defineArguments m.name)
        ++ [Event.parseArgs])
        ++ (gs.modules.map (fun m => Event.initModule m.name)
          ++ gs.modules.map (fun m => Event.startModule m.name)
          ++ (Event.spawnThread true :: List.replicate k Event.poll)),
        x ≠ Event.joinThread ∧ x.isStop = false := by
      intro x hx
      rcases List.mem_append.mp hx with hx | hx
      · rcases List.mem_append.mp hx with hx | hx
        · obtain ⟨n, rfl⟩ := mem_map_name hx
          exact ⟨by simp, rfl⟩
        · rcases List.mem_cons.mp hx with rfl | hx
          · exact ⟨by simp, rfl⟩
          · simp at hx
      · rcases List.mem_append.mp hx with hx | hx
        · rcases List.mem_append.mp hx with hx | hx
          · obtain ⟨n, rfl⟩ := mem_map_name hx
            exact ⟨by simp, rfl⟩
          · obtain ⟨n, rfl⟩ := mem_map_name hx
            exact ⟨by simp, rfl⟩
        · rcases List.mem_cons.mp hx with rfl | hx
          · exact ⟨by simp, rfl⟩
          · rw [List.eq_of_mem_replicate hx]
            exact ⟨by simp, rfl⟩
    rw [stopsAfterJoin_append hp]
    exact htail3.2
  · have c1 : (gs.modules.map (fun m => Event.defineArguments m.name)).count Event.poll
        = 0 := List.count_eq_zero.mpr (by
      intro ha
      obtain ⟨n, hn⟩ := mem_map_name ha
      simp at hn)
    have c3 : (gs.modules.map (fun m => Event.initModule m.name)).count Event.poll
        = 0 := List.count_eq_zero.mpr (by
      intro ha
      obtain ⟨n, hn⟩ := mem_map_name ha
      simp at hn)
    have c4 : (gs.modules.map (fun m => Event.startModule m.name)).count Event.poll
        = 0 := List.count_eq_zero.mpr (by
      intro ha
      obtain ⟨n, hn⟩ := mem_map_name ha
      simp at hn)
    have c6 : tail.count Event.poll = 0 := List.count_eq_zero.mpr (by
      intro ha
      exact (htail3.1 _ ha).2 rfl)
    simp [List.count_append, c1, c3, c4, c6, List.count_cons]

/-- Globals for the C4 witness. -/
def gsC4 : GlobalState :=
  { state := JState.Idle, modules := [mAlpha], config := none, jobThread := false }

/-- Run environment for the C4 witness: the thread survives two polls. -/
def specC4 : RunSpec :=
  { parsed := 0, aliveSteps := 2, pollState := fun _ => JState.Running, runExc := none }

/-- Witness for C4 at a concrete one-module job with two poll iterations. -/
theorem run_single_thread_witness :
    (run gsC4 specC4).trace.filter Event.isSpawn = [Event.spawnThread true]
    ∧ stopsAfterJoin (run gsC4 specC4).trace = true
    ∧ (run gsC4 specC4).trace.count Event.poll = 2 :=
  run_single_thread gsC4 specC4 2 rfl (by decide) (by decide) (fun _ _ => rfl) (Or.inl rfl)

/-- C8: calling `scripting.run` when the state is not `Idle` raises
`Exception("A job can only be run once.")` with an empty trace (no module
callback runs) and the globals unchanged; `init()` resets the state to
`Idle` with an empty module list and no configuration, after which `run`
proceeds again (it spawns the job); and `run` never leaves the state at
`Idle`, so a further `run` requires another `init`. -/
theorem run_only_once (gs : GlobalState) (spec spec2 : RunSpec)
    (h : gs.state ≠ JState.Idle) :
    run gs spec = ⟨gs, [], some (Exc.error "A job can only be run once.")⟩
    ∧ (init gs).1.state = JState.Idle
    ∧ (init gs).1.modules = []
    ∧ (init gs).1.config = none
    ∧ Event.spawnThread true ∈ (run (init gs).1 spec2).trace
    ∧ (run (init gs).1 spec2).gs.state ≠ JState.Idle := by
  refine ⟨by simp [run, h], rfl, rfl, rfl, ?_, ?_⟩
  · rw [run_eq_afterTry (init gs).1 spec2 rfl (by simp [init])]
    rw [tryPhase_clean (init gs).1.modules spec2 (by simp [init])]
    obtain ⟨tail, htr, _⟩ := afterTry_decomp _ _ _
    rw [htr]
    simp [init]
  · rw [run_eq_afterTry (init gs).1 spec2 rfl (by simp [init])]
    exact afterTry_state_ne_idle _ _ _ rfl

/-- Globals for the C8 witness: a job has already finished. -/
def gsC8 : GlobalState :=
  { state := JState.Finished, modules := [mAlpha], config := some 5, jobThread := false }

/-- Run environment for the C8 witness. -/
def specC8 : RunSpec :=
  { parsed := 2, aliveSteps := 0, pollState := fun _ => JState.Running, runExc := none }

/-- Witness for C8 after a finished job. -/
theorem run_only_once_witness :
    run gsC8 specC8 = ⟨gsC8, [], some (Exc.error "A job can only be run once.")⟩
    ∧ (init gsC8).1.state = JState.Idle
    ∧ (init gsC8).1.modules = []
    ∧ (init gsC8).1.config = none
    ∧ Event.spawnThread true ∈ (run (init gsC8).1 specC8).trace
    ∧ (run (init gsC8).1 specC8).gs.state ≠ JState.Idle :=
  run_only_once gsC8 specC8 specC8 (by decide)

end Scripting

namespace WandbMod

/-- A `pathlib.Path` value, abstracted to an absolute flag plus segments. -/
structure PyPath where
  absolute : Bool
  segments : List String
deriving DecidableEq, Repr

/-- Model of `pathlib`'s `/` operator: joining with an absolute path discards the
left operand. -/
def PyPath.join (a b : PyPath) : PyPath :=
  if b.absolute then b else ⟨a.absolute, a.segments ++ b.segments⟩

/-- Result of one cache request, instrumented with the number of
`load`/`create` invocations the request performed. -/
structure GetResult (T : Type) where
  value : T
  cached : Option T
  loadCalls : Nat
  createCalls : Nat

/-- Model of `PersistentObjectFactory.get` (dl_utilities `module/wandb.py`): on a
cache miss call `load()`, and if it returns `None` call `create()`; cache
and return the result.  On a hit return the cached object directly. -/
def PersistentObjectFactory.get {T : Type} (loadFn : Option T) (createFn : T)
    (obj : Option T) : GetResult T :=
  match obj with
  | some v => ⟨v, some v, 0, 0⟩
  | none =>
    match loadFn with
    | some v => ⟨v, some v, 1, 0⟩
    | none => ⟨createFn, some createFn, 1, 1⟩

/-- Model of `PersistentObject.instance` (deepctx `wandb_module.py`): on a cache
miss call `_load()` when the tracking run was resumed and `_create()`
otherwise; cache and return the result.  On a hit return the cached
object directly. -/
def PersistentObject.instanceGet {T : Type} (resumed : Bool) (loadFn createFn : T)
    (inst : Option T) : GetResult T :=
  match inst with
  | some v => ⟨v, some v, 0, 0⟩
  | none =>
    if resumed then ⟨loadFn, some loadFn, 1, 0⟩
    else ⟨createFn, some createFn, 0, 1⟩

/-- C2: the first request for a persistent object's instance produces the
object lazily — the factory's `get` loads it from the tracking service,
falling back to `create` when `load` yields nothing; `instance` loads when
the run was resumed and creates otherwise — and the result is cached: a
second request returns the same object with zero further `load`/`create`
calls and leaves the cache unchanged, so every subsequent request behaves
the same. -/
theorem persistent_object_cached {T : Type} (loadO : Option T) (loadFn createFn : T)
    (resumed : Bool) :
    (PersistentObjectFactory.get loadO createFn none).value = loadO.getD createFn
    ∧ (PersistentObject.instanceGet resumed loadFn createFn none).value
        = (if resumed then loadFn else createFn)
    ∧ (PersistentObjectFactory.get loadO createFn
          (PersistentObjectFactory.get loadO createFn none).cached)
        = ⟨(PersistentObjectFactory.get loadO createFn none).value,
            (PersistentObjectFactory.get loadO createFn none).cached, 0, 0⟩
    ∧ (PersistentObject.instanceGet resumed loadFn createFn
          (PersistentObject.instanceGet resumed loadFn createFn none).cached)
        = ⟨(PersistentObject.instanceGet resumed loadFn createFn none).value,
            (PersistentObject.instanceGet resumed loadFn createFn none).cached, 0, 0⟩ := by
  cases loadO <;> cases resumed <;>
    simp [PersistentObjectFactory.get, PersistentObject.instanceGet]

/-- The `PersistentObject.State` enumeration (deepctx). -/
inductive PState where
  | Creating
  | Idle
  | Loading
  | Saving
deriving DecidableEq, Repr

/-- Result of `PersistentObject.path`: the returned absolute path, and the
relative path passed to the recursive `wandb.restore` when one was
issued. -/
structure PathResult where
  result : PyPath
  restoreCall : Option PyPath
deriving DecidableEq, Repr

/-- Model of `PersistentObject.path`: assert the argument is relative, prepend
`persistent_objects`, resolve against the run directory, and issue a
recursive restore of the relative path exactly when the object state is
`Loading`.  `none` models the assertion failure on an absolute argument. -/
def PersistentObject.path (st : PState) (runDir : PyPath) (p : PyPath) :
    Option PathResult :=
  if p.absolute then none
  else
    some ⟨PyPath.join runDir (PyPath.join ⟨false, ["persistent_objects"]⟩ p),
      if st = PState.Loading then some (PyPath.join ⟨false, ["persistent_objects"]⟩ p)
      else none⟩

/-- Model of `PersistentObject._do`: run the operation with the state set for its
duration, then return to `Idle`.  The operation observes the state (e.g.
through `path`). -/
def PersistentObject.doOp {A : Type} (op : PState → A) (st : PState) : A × PState :=
  (op st, PState.Idle)

/-- Model of `PersistentObject._load`: runs its callback under `Loading`. -/
def PersistentObject.loadOp {A : Type} (op : PState → A) : A × PState :=
  PersistentObject.doOp op PState.Loading

/-- Model of `PersistentObject._create`: runs its callback under `Creating`. -/
def PersistentObject.createOp {A : Type} (op : PState → A) : A × PState :=
  PersistentObject.doOp op PState.Creating

/-- Model of `PersistentObject._save`: runs its callback under `Saving`. -/
def PersistentObject.saveOp {A : Type} (op : PState → A) : A × PState :=
  PersistentObject.doOp op PState.Saving

/-- C7: `path` maps a relative `p` to `run.dir / "persistent_objects" / p`,
fails its assertion on every absolute argument, and issues the recursive
restore exactly when the state is `Loading` — so a `path` call made from
inside `load()` (run under `Loading` by `_do`) restores, while calls made
from inside `create()` or `save()` do not. -/
theorem persistent_object_path (st : PState) (runDir p q : PyPath)
    (hrel : p.absolute = false) (habs : q.absolute = true) :
    PersistentObject.path st runDir p =
      some ⟨⟨runDir.absolute, runDir.segments ++ "persistent_objects" :: p.segments⟩,
        if st = PState.Loading then some ⟨false, "persistent_objects" :: p.segments⟩
        else none⟩
    ∧ PersistentObject.path st runDir q = none
    ∧ (PersistentObject.loadOp (fun s => PersistentObject.path s runDir p)).1
        = some ⟨⟨runDir.absolute, runDir.segments ++ "persistent_objects" :: p.segments⟩,
            some ⟨false, "persistent_objects" :: p.segments⟩⟩
    ∧ (PersistentObject.createOp (fun s => PersistentObject.path s runDir p)).1
        = some ⟨⟨runDir.absolute, runDir.segments ++ "persistent_objects" :: p.segments⟩,
            none⟩
    ∧ (PersistentObject.saveOp (fun s => PersistentObject.path s runDir p)).1
        = some ⟨⟨runDir.absolute, runDir.segments ++ "persistent_objects" :: p.segments⟩,
            none⟩ := by
  refine ⟨?_, by simp [PersistentObject.path, habs], ?_, ?_, ?_⟩ <;>
    simp [PersistentObject.path, PersistentObject.loadOp, PersistentObject.createOp,
      PersistentObject.saveOp, PersistentObject.doOp, PyPath.join, hrel]

/-- Witness for C7 at a concrete run directory and paths. -/
theorem persistent_object_path_witness :
    PersistentObject.path PState.Loading ⟨true, ["runs", "r1"]⟩ ⟨false, ["weights"]⟩ =
      some ⟨⟨true, ["runs", "r1"] ++ "persistent_objects" :: ["weights"]⟩,
        if PState.Loading = PState.Loading then
          some ⟨false, "persistent_objects" :: ["weights"]⟩
        else none⟩
    ∧ PersistentObject.path PState.Loading ⟨true, ["runs", "r1"]⟩ ⟨true, ["abs"]⟩ = none
    ∧ (PersistentObject.loadOp
        (fun s => PersistentObject.path s ⟨true, ["runs", "r1"]⟩ ⟨false, ["weights"]⟩)).1
        = some ⟨⟨true, ["runs", "r1"] ++ "persistent_objects" :: ["weights"]⟩,
            some ⟨false, "persistent_objects" :: ["weights"]⟩⟩
    ∧ (PersistentObject.createOp
        (fun s => PersistentObject.path s ⟨true, ["runs", "r1"]⟩ ⟨false, ["weights"]⟩)).1
        = some ⟨⟨true, ["runs", "r1"] ++ "persistent_objects" :: ["weights"]⟩, none⟩
    ∧ (PersistentObject.saveOp
        (fun s => PersistentObject.path s ⟨true, ["runs", "r1"]⟩ ⟨false, ["weights"]⟩)).1
        = some ⟨⟨true, ["runs", "r1"] ++ "persistent_objects" :: ["weights"]⟩, none⟩ :=
  persistent_object_path PState.Loading ⟨true, ["runs", "r1"]⟩ ⟨false, ["weights"]⟩
    ⟨true, ["abs"]⟩ rfl rfl

/-- The mutable configuration of the deepctx `Wandb` module relevant to
resumption: `_can_resume` (assigned only in the constructor),
`_is_resumeable` (the attribute `resumeable()` assigns; absent until the
first call), and `_api_only`. -/
structure WandbCfg where
  canResume : Bool
  isResumeable : Option Bool
  apiOnly : Bool
deriving DecidableEq, Repr

/-- The constructor state of the deepctx `Wandb` module:
`_can_resume = False`, `_api_only = False`, no `_is_resumeable`. -/
def WandbCfg.initial : WandbCfg := ⟨false, none, false⟩

/-- Model of `Wandb.resumeable`: raise `RuntimeError` in API-only mode, otherwise
assign `_is_resumeable` (note: not `_can_resume`) and return `self`. -/
def Wandb.resumeable (w : WandbCfg) (b : Bool) : Option WandbCfg :=
  if w.apiOnly then none
  else some { w with isResumeable := some b }

/-- Model of `Wandb.can_resume`: read `_can_resume`. -/
def Wandb.can_resume (w : WandbCfg) : Bool := w.canResume

/-- Model of `Wandb._define_arguments`: defines `--wandb-resume` iff `can_resume`. -/
def Wandb.definesResumeArg (w : WandbCfg) : Bool := Wandb.can_resume w

/-- The resume decision of `Wandb._create_wandb_run`: `("must", run id)`
iff `can_resume` holds and `--wandb-resume` was supplied, else
`("never", no id)`. -/
def Wandb.resumeMode (w : WandbCfg) (wandbResume : Option String) :
    String × Option String :=
  if Wandb.can_resume w ∧ wandbResume ≠ none then ("must", wandbResume)
  else ("never", none)

/-- C9: `resumeable(b)` assigns the attribute `_is_resumeable`, which
`can_resume` never reads, so for every `b` it leaves `can_resume`
unchanged — and with it whether `--wandb-resume` is defined and whether
run resumption is attempted at start; the constructor's initial
`_can_resume = False` therefore fixes them.  (When `resumeable` raises in
API-only mode, `getD` returns the unchanged state.) -/
theorem resumeable_frame (w : WandbCfg) (b : Bool) (ropt : Option String) :
    Wandb.can_resume ((Wandb.resumeable w b).getD w) = Wandb.can_resume w
    ∧ Wandb.definesResumeArg ((Wandb.resumeable w b).getD w) = Wandb.definesResumeArg w
    ∧ Wandb.resumeMode ((Wandb.resumeable w b).getD w) ropt = Wandb.resumeMode w ropt
    ∧ ((Wandb.resumeable w b).getD w).isResumeable
        = (if w.apiOnly then w.isResumeable else some b)
    ∧ Wandb.can_resume WandbCfg.initial = false := by
  by_cases h : w.apiOnly <;>
    simp [Wandb.resumeable, Wandb.can_resume, Wandb.definesResumeArg, Wandb.resumeMode,
      WandbCfg.initial, h]

/-- An entry of the file-system tree under the run directory. -/
inductive FSTree where
  | file (name : String)
  | dir (name : String) (children : List FSTree)

def FSTree.dirChildren : FSTree → Option (List FSTree)
  | FSTree.dir _ cs => some cs
  | FSTree.file _ => none

def FSTree.fileLabel : FSTree → Option String
  | FSTree.file n => some n
  | FSTree.dir _ _ => none

def FSTree.weight : FSTree → Nat
  | FSTree.file _ => 1
  | FSTree.dir _ cs => 1 + (cs.attach.map (fun c => FSTree.weight c.1)).sum
termination_by t => sizeOf t
decreasing_by
  have := List.sizeOf_lt_of_mem c.2
  simp
  omega

def forestWeight (ts : List FSTree) : Nat := (ts.map FSTree.weight).sum

theorem FSTree.weight_file (n : String) : FSTree.weight (FSTree.file n) = 1 := by
  simp [FSTree.weight]

theorem FSTree.weight_dir (n : String) (cs : List FSTree) :
    FSTree.weight (FSTree.dir n cs) = 1 + forestWeight cs := by
  rw [FSTree.weight, forestWeight, List.attach_map_val]

def worklistWeight (ps : List (List FSTree)) : Nat := (ps.map forestWeight).sum

theorem filterMap_dirChildren_weight (l : List FSTree) :
    worklistWeight (l.filterMap FSTree.dirChildren) + l.length ≤ forestWeight l := by
  induction l with
  | nil => simp [worklistWeight, forestWeight]
  | cons c cs ih =>
    cases c with
    | file n =>
      simp only [List.filterMap_cons, FSTree.dirChildren, forestWeight, List.map_cons,
        List.sum_cons, List.length_cons, FSTree.weight_file] at *
      omega
    | dir n ds =>
      simp only [List.filterMap_cons, FSTree.dirChildren, forestWeight, worklistWeight,
        List.map_cons, List.sum_cons, List.length_cons, FSTree.weight_dir] at *
      omega

theorem worklistWeight_append (a b : List (List FSTree)) :
    worklistWeight (a ++ b) = worklistWeight a + worklistWeight b := by
  simp [worklistWeight, List.map_append, List.sum_append]

theorem uploadStep_lt (ps : List (List FSTree)) (h : ps ≠ []) :
    2 * worklistWeight (ps.dropLast ++ ((ps.getLast h).filterMap FSTree.dirChildren))
      + (ps.dropLast ++ ((ps.getLast h).filterMap FSTree.dirChildren)).length
    < 2 * worklistWeight ps + ps.length := by
  have hsplit : ps.dropLast ++ [ps.getLast h] = ps := List.dropLast_append_getLast h
  have hW : worklistWeight ps
      = worklistWeight ps.dropLast + forestWeight (ps.getLast h) := by
    conv_lhs => rw [← hsplit]
    rw [worklistWeight_append]
    simp [worklistWeight]
  have hlen : ps.length = ps.dropLast.length + 1 := by
    conv_lhs => rw [← hsplit]
    simp
  have hbound := filterMap_dirChildren_weight (ps.getLast h)
  have hsublen : ((ps.getLast h).filterMap FSTree.dirChildren).length
      ≤ (ps.getLast h).length := List.length_filterMap_le _ _
  rw [worklistWeight_append]
  simp only [List.length_append]
  omega

def uploadLoop (ps : List (List FSTree)) : List String :=
  match hps : ps with
  | [] => []
  | _ :: _ =>
    (ps.getLast (by simp [hps])).filterMap FSTree.fileLabel
      ++ uploadLoop (ps.dropLast ++ (ps.getLast (by simp [hps])).filterMap FSTree.dirChildren)
termination_by 2 * worklistWeight ps + ps.length
decreasing_by
  subst hps
  rename_i hd tl
  exact uploadStep_lt (hd :: tl) (by simp)

def FSTree.allFiles : FSTree → List String
  | FSTree.file n => [n]
  | FSTree.dir _ cs => (cs.attach.map (fun c => FSTree.allFiles c.1)).flatten
termination_by t => sizeOf t
decreasing_by
  have := List.sizeOf_lt_of_mem c.2
  simp
  omega

def forestFiles (ts : List FSTree) : List String := (ts.map FSTree.allFiles).flatten

theorem FSTree.allFiles_file (n : String) : (FSTree.file n).allFiles = [n] := by
  simp [FSTree.allFiles]

theorem FSTree.allFiles_dir (n : String) (cs : List FSTree) :
    (FSTree.dir n cs).allFiles = forestFiles cs := by
  rw [FSTree.allFiles, forestFiles, List.attach_map_val]

theorem forestFiles_cons (t : FSTree) (ts : List FSTree) :
    forestFiles (t :: ts) = t.allFiles ++ forestFiles ts := by
  simp [forestFiles]

theorem forestFiles_split (children : List FSTree) :
    List.Perm (children.filterMap FSTree.fileLabel
      ++ ((children.filterMap FSTree.dirChildren).map forestFiles).flatten)
      (forestFiles children) := by
  induction children with
  | nil => simp [forestFiles]
  | cons c cs ih =>
    cases c with
    | file n =>
      simp only [List.filterMap_cons, FSTree.fileLabel, FSTree.dirChildren,
        forestFiles_cons, FSTree.allFiles_file, List.cons_append, List.singleton_append]
      exact ih.cons n
    | dir n ds =>
      simp only [List.filterMap_cons, FSTree.fileLabel, FSTree.dirChildren,
        forestFiles_cons, FSTree.allFiles_dir, List.map_cons, List.flatten_cons]
      have h2 := ih.append_left (forestFiles ds)
      refine List.Perm.trans ?_ h2
      have h4 := (@List.perm_append_comm _
        (cs.filterMap FSTree.fileLabel)
        (forestFiles ds)).append_right
        (((cs.filterMap FSTree.dirChildren).map forestFiles).flatten)
      simpa [List.append_assoc] using h4

theorem uploadLoop_perm (ps : List (List FSTree)) :
    List.Perm (uploadLoop ps) ((ps.map forestFiles).flatten) := by
  induction ps using uploadLoop.induct with
  | case1 => simp [uploadLoop]
  | case2 hd tl ih =>
    have hne : (hd :: tl : List (List FSTree)) ≠ [] := by simp
    have hsplit : (hd :: tl).dropLast ++ [(hd :: tl).getLast hne] = hd :: tl :=
      List.dropLast_append_getLast hne
    rw [uploadLoop]
    conv_rhs => rw [← hsplit]
    simp only [List.map_append, List.flatten_append, List.map_cons, List.map_nil,
      List.flatten_cons, List.flatten_nil, List.append_nil]
    have h2 := (forestFiles_split ((hd :: tl).getLast hne)).append_left
      (((hd :: tl).dropLast.map forestFiles).flatten)
    refine List.Perm.trans ?_ h2
    have h3 := ih.append_left (((hd :: tl).getLast hne).filterMap FSTree.fileLabel)
    refine h3.trans ?_
    simp only [List.map_append, List.flatten_append]
    have h4 := (@List.perm_append_comm _
      (((hd :: tl).getLast hne).filterMap FSTree.fileLabel)
      ((((hd :: tl).dropLast).map forestFiles).flatten)).append_right
      (((((hd :: tl).getLast hne).filterMap FSTree.dirChildren).map forestFiles).flatten)
    simpa [List.append_assoc] using h4

/-- A registered persistent object as `Wandb._stop` sees it: a registration
id and whether its `_instance` was ever materialized. -/
structure PObjRec where
  oid : Nat
  materialized : Bool
deriving DecidableEq, Repr

/-- Events of `Wandb._stop`. -/
inductive WEvent where
  | saveObj (oid : Nat)
  | uploadFile (name : String)
  | finishRun
deriving DecidableEq, Repr

/-- Model of `PersistentObject._save`: return immediately when the instance was
never materialized, otherwise save. -/
def PObjRec.saveEvents (o : PObjRec) : List WEvent :=
  if o.materialized then [WEvent.saveObj o.oid] else []

/-- Model of `Wandb._stop` with `_upload_persistent_objects`: return immediately
when no run is active; otherwise `_save` every registered persistent
object in registration order, then (unless API-only) upload the files
under the run directory's `persistent_objects` folder when it exists and
is a directory (`folder = some children`), and finally finish the run. -/
def wandbStop (runActive apiOnly : Bool) (objs : List PObjRec)
    (folder : Option (List FSTree)) : List WEvent :=
  if runActive then
    (objs.map PObjRec.saveEvents).flatten
    ++ (if apiOnly then []
        else match folder with
          | some children => (uploadLoop [children]).map WEvent.uploadFile
          | none => [])
    ++ [WEvent.finishRun]
  else []

theorem saveEvents_flatten (objs : List PObjRec) :
    (objs.map PObjRec.saveEvents).flatten
      = (objs.filter (fun o => o.materialized)).map (fun o => WEvent.saveObj o.oid) := by
  induction objs with
  | nil => rfl
  | cons o os ih =>
    cases hm : o.materialized <;>
      simp [PObjRec.saveEvents, hm, ih, List.filter_cons]

/-- C6: when the Wandb module stops while a run is active (and not in
API-only mode), the event sequence is exactly: `_save` on the registered
persistent objects in registration order, skipping those whose instance
was never materialized; then the upload of the `persistent_objects`
folder; then — and only then — the tracking-service run finish.  The
uploaded files are exactly (a permutation of) all files found anywhere
under the folder.  When no run is active, `_stop` does nothing. -/
theorem wandb_stop_order (objs : List PObjRec) (children : List FSTree) :
    wandbStop true false objs (some children) =
      ((objs.filter (fun o => o.materialized)).map (fun o => WEvent.saveObj o.oid))
      ++ ((uploadLoop [children]).map WEvent.uploadFile
      ++ [WEvent.finishRun])
    ∧ List.Perm (uploadLoop [children]) (forestFiles children)
    ∧ wandbStop false false objs (some children) = [] := by
  refine ⟨?_, ?_, rfl⟩
  · simp [wandbStop, saveEvents_flatten]
  · have h := uploadLoop_perm [children]
    simpa [forestFiles] using h

/-- Python-level errors surfaced by the artifact-argument API. -/
inductive PyErr where
  | assertionError
  | attributeError (attr : String)
  | keyError (key : String)
  | typeError
  | runtimeError (msg : String)
deriving DecidableEq, Repr

/-- Python `str.replace("-", "_")`. -/
def pyReplace (s : String) : String :=
  String.mk (s.data.map (fun c => if c = '-' then '_' else c))

/-- Model of `getattr` on an `argparse.Namespace`: attributes hold optional strings
(`None` when the option was not supplied); a missing attribute raises
`AttributeError`. -/
def getattr (cfg : List (String × Option String)) (a : String) :
    Except PyErr (Option String) :=
  match cfg.lookup a with
  | some v => Except.ok v
  | none => Except.error (PyErr.attributeError a)

/-- Python dict assignment `d[k] = v`: overwrite in place, or append. -/
def dictSet (l : List (String × PyPath)) (k : String) (v : PyPath) :
    List (String × PyPath) :=
  if l.lookup k = none then l ++ [(k, v)]
  else l.map (fun kv => if kv.1 = k then (k, v) else kv)

/-- The artifact-argument bookkeeping of `WandbApi`: the keys of
`_config_artifact_arguments` and the `_config_artifacts` dictionary. -/
structure ApiState where
  artifactArgs : List String
  configArtifacts : List (String × PyPath)
deriving DecidableEq, Repr

/-- Model of `WandbApi.add_artifact_argument`: register under the hyphen-normalised
key, asserting it is new.  Defining `--{name}-artifact` / `--{name}-path`
makes argparse store the attributes `{key}_artifact` / `{key}_path`. -/
def add_artifact_argument (st : ApiState) (name : String) : Option ApiState :=
  if pyReplace name ∈ st.artifactArgs then none
  else some { st with artifactArgs := st.artifactArgs ++ [pyReplace name] }

/-- Model of `WandbApi.artifact_argument_path`, translated line by line: the assert
is on `key = name.replace("-", "_")`, but the cache-membership test and the
`getattr` probes use the raw `name`; values are fetched and stored under
`key`; the final lookup is under `name` again.  `download` abstracts
`use_artifact(...).download()`. -/
def artifact_argument_path (st : ApiState) (cfg : List (String × Option String))
    (download : String → PyPath) (name : String) :
    Except PyErr (PyPath × ApiState) := do
  let key := pyReplace name
  if key ∈ st.artifactArgs then
    let st' ←
      match st.configArtifacts.lookup name with
      | some _ => pure st
      | none =>
        match ← getattr cfg (name ++ "_artifact") with
        | some _ =>
          match ← getattr cfg (key ++ "_artifact") with
          | some artName =>
            pure { st with
              configArtifacts := dictSet st.configArtifacts key (download artName) }
          | none => Except.error PyErr.typeError
        | none =>
          match ← getattr cfg (name ++ "_path") with
          | some _ =>
            match ← getattr cfg (key ++ "_path") with
            | some pathStr =>
              pure { st with
                configArtifacts := dictSet st.configArtifacts key ⟨false, [pathStr]⟩ }
            | none => Except.error PyErr.typeError
          | none =>
            Except.error (PyErr.runtimeError
              ("No artifact or path provided for: `" ++ name ++ "`."))
    match st'.configArtifacts.lookup name with
    | some p => Except.ok (p, st')
    | none => Except.error (PyErr.keyError name)
  else Except.error PyErr.assertionError

/-- The artifact-argument state after `add_artifact_argument("model-data")`. -/
def stC10 : ApiState := { artifactArgs := ["model_data"], configArtifacts := [] }

/-- The parsed configuration when `--model-data-path /data/model` is
supplied: argparse defines `model_data_artifact = None` and
`model_data_path = "/data/model"`. -/
def cfgC10 : List (String × Option String) :=
  [("model_data_artifact", none), ("model_data_path", some "/data/model")]

/-- C10 failing input: for the hyphenated artifact argument `model-data`
that was added and whose `--model-data-path` option was supplied,
`artifact_argument_path` raises `AttributeError("model-data_artifact")`
instead of returning the supplied path — the function normalises hyphens
into `key` but probes the configuration and returns through the raw
`name`.  For hyphen-free names the claimed behaviour holds: the path
option yields its `Path`, the artifact option downloads, and neither
option yields a `RuntimeError`. -/
theorem artifact_argument_path_hyphen_bug :
    add_artifact_argument { artifactArgs := [], configArtifacts := [] } "model-data"
      = some stC10
    ∧ artifact_argument_path stC10 cfgC10 (fun _ => ⟨false, ["dl"]⟩) "model-data"
      = Except.error (PyErr.attributeError "model-data_artifact")
    ∧ artifact_argument_path
        { artifactArgs := ["modeldata"], configArtifacts := [] }
        [("modeldata_artifact", none), ("modeldata_path", some "/data/model")]
        (fun _ => ⟨false, ["dl"]⟩) "modeldata"
      = Except.ok (⟨false, ["/data/model"]⟩,
          { artifactArgs := ["modeldata"],
            configArtifacts := [("modeldata", ⟨false, ["/data/model"]⟩)] })
    ∧ artifact_argument_path
        { artifactArgs := ["modeldata"], configArtifacts := [] }
        [("modeldata_artifact", some "org/proj/art:v1"), ("modeldata_path", none)]
        (fun a => ⟨false, ["downloads", a]⟩) "modeldata"
      = Except.ok (⟨false, ["downloads", "org/proj/art:v1"]⟩,
          { artifactArgs := ["modeldata"],
            configArtifacts := [("modeldata", ⟨false, ["downloads", "org/proj/art:v1"]⟩)] })
    ∧ artifact_argument_path
        { artifactArgs := ["modeldata"], configArtifacts := [] }
        [("modeldata_artifact", none), ("modeldata_path", none)]
        (fun _ => ⟨false, ["dl"]⟩) "modeldata"
      = Except.error (PyErr.runtimeError "No artifact or path provided for: `modeldata`.") :=
  ⟨rfl, rfl, rfl, rfl, rfl⟩

end WandbMod
